import Mathlib

/-!
# Verification of the Intcode core of `advent-of-code-2019`

This file gives a shallow embedding of the Intcode virtual machine found in
`src/intcode.rs` (the canonical `i64` machine with relative addressing) and of
the earlier `i32` machine in `src/day7.rs` (used by the day-7 feedback loop),
together with theorems checking the natural-language specification against
this embedding.

Modelling conventions:
* Rust `i64`/`i32` values are Lean `Int`s.  Arithmetic that Rust performs with
  overflow checks (debug-profile `+`, `*`) is modelled by `checked64` /
  `checked32`, which yield `none` outside the machine-integer range; a Rust
  panic (overflow, out-of-bounds index, `unreachable!`, `expect` failure) is
  modelled as `none`.
* `as usize` casts are two's-complement reinterpretation, modelled by
  `toUsize` (reduction mod `2^64`); a negative operand therefore becomes a
  huge address and faults at the subsequent bounds check, exactly as in Rust.
* The mpsc input/output channels of the `i64` machine are modelled as FIFO
  `List Int` buffers: `input` holds pending input values (oldest first) and
  `output` accumulates emitted values (oldest first).  A blocked/failed
  `recv` on an empty input is `none`.
* Memory is the fixed 4096-cell array of `src/intcode.rs`, modelled as a
  `List Int` of length `MEMORY`; `IntcodeMachine.new` is `none` when the
  program does not fit (Rust's `copy_from_slice` panics there).
-/

set_option maxRecDepth 100000

/-- `const MEMORY: usize = 4096;` from `src/intcode.rs`. -/
def MEMORY : Nat := 4096

/-- Rust `v as usize`: two's-complement reinterpretation of an integer as an
unsigned 64-bit machine word. -/
def toUsize (v : Int) : Nat := (v % (2 ^ 64 : Int)).toNat

/-- Overflow-checked `i64` arithmetic (Rust debug-profile `+`/`*` panic on
overflow, modelled as `none`). -/
def checked64 (x : Int) : Option Int :=
  if -(2 ^ 63) ≤ x ∧ x < 2 ^ 63 then some x else none

/-- Overflow-checked `i32` arithmetic, for the day-7 machine. -/
def checked32 (x : Int) : Option Int :=
  if -(2 ^ 31) ≤ x ∧ x < 2 ^ 31 then some x else none

/-- Parameter addressing mode (`enum Mode` in `src/intcode.rs`). -/
inductive Mode where
  | Position
  | Immediate
  | Relative
deriving DecidableEq, Repr

/-- Operand access permission (`enum Perm` in `src/intcode.rs`). -/
inductive Perm where
  | Read
  | Write
deriving DecidableEq, Repr

/-- Decoded instruction (`enum Instruction` in `src/intcode.rs`): operand
values are already dereferenced for reads and already resolved to addresses
for writes. -/
inductive Instruction where
  | Add (a b dst : Int)
  | Multiply (a b dst : Int)
  | Input (dst : Int)
  | Output (a : Int)
  | JumpIfTrue (a b : Int)
  | JumpIfFalse (a b : Int)
  | LessThan (a b dst : Int)
  | Equals (a b dst : Int)
  | RelativeBase (a : Int)
  | Exit
deriving DecidableEq, Repr

/-- Number of operands the instruction consumed after its opcode word. -/
def Instruction.nops : Instruction → Nat
  | .Add _ _ _ => 3
  | .Multiply _ _ _ => 3
  | .Input _ => 1
  | .Output _ => 1
  | .JumpIfTrue _ _ => 2
  | .JumpIfFalse _ _ => 2
  | .LessThan _ _ _ => 3
  | .Equals _ _ _ => 3
  | .RelativeBase _ => 1
  | .Exit => 0

/-- The machine state of `struct IntcodeMachine` in `src/intcode.rs`.  The
mpsc endpoints are modelled as FIFO lists (oldest value first). -/
structure IntcodeMachine where
  pc : Nat
  mem : List Int
  relative_base : Int
  input : List Int
  output : List Int
  halted : Bool
deriving DecidableEq, Repr

/-- `IntcodeMachine::load`: `self.mem[address]`, a fatal fault (panic) out of
bounds. -/
def IntcodeMachine.load (m : IntcodeMachine) (address : Nat) : Option Int :=
  m.mem.get? address

/-- `IntcodeMachine::store`: `self.mem[address] = v`, a fatal fault (panic)
out of bounds; never grows the array. -/
def IntcodeMachine.store (m : IntcodeMachine) (address : Nat) (v : Int) :
    Option IntcodeMachine :=
  if address < m.mem.length then some { m with mem := m.mem.set address v }
  else none

/-- `IntcodeMachine::next`: load the cell at `pc` and advance `pc`. -/
def IntcodeMachine.next (m : IntcodeMachine) : Option (Int × IntcodeMachine) :=
  (m.load m.pc).map (fun v => (v, { m with pc := m.pc + 1 }))

/-- The machine built by `IntcodeMachine::new` (memory zero-initialised, the
program copied into its prefix), assuming the program fits. -/
def newMachine (program input : List Int) : IntcodeMachine :=
  { pc := 0
    mem := program ++ List.replicate (MEMORY - program.length) 0
    relative_base := 0
    input := input
    output := []
    halted := false }

/-- `IntcodeMachine::new`: `copy_from_slice` panics when the program is longer
than the fixed memory, modelled as `none`. -/
def IntcodeMachine.new (program input : List Int) : Option IntcodeMachine :=
  if program.length ≤ MEMORY then some (newMachine program input) else none

/-- The operand closure `next` inside `From<&mut IntcodeMachine> for
Instruction`: consume one cell, resolve it according to the lowest digit of
`mode` and the access permission, and return the resolved value together with
the remaining mode digits and the advanced machine.  An unrecognised mode
digit is `unreachable!`, i.e. a fatal decode fault (`none`). -/
def fetchOperand (perm : Perm) (mode : Int) (m : IntcodeMachine) :
    Option (Int × Int × IntcodeMachine) :=
  match m.next with
  | none => none
  | some (v, m₁) =>
    let md := mode.tmod 10
    let rest := mode.tdiv 10
    if md = 0 then
      match perm with
      | .Read => (m₁.load (toUsize v)).map (fun x => (x, rest, m₁))
      | .Write => some (v, rest, m₁)
    else if md = 1 then some (v, rest, m₁)
    else if md = 2 then
      match checked64 (m₁.relative_base + v) with
      | none => none
      | some s =>
        match perm with
        | .Read => (m₁.load (toUsize s)).map (fun x => (x, rest, m₁))
        | .Write => some (s, rest, m₁)
    else none

/-- One operand fetch. -/
def fetch1 (p : Perm) (mode : Int) (m : IntcodeMachine) :
    Option (Int × IntcodeMachine) :=
  (fetchOperand p mode m).map (fun x => (x.1, x.2.2))

/-- Two sequential operand fetches, threading the remaining mode digits. -/
def fetch2 (p q : Perm) (mode : Int) (m : IntcodeMachine) :
    Option (Int × Int × IntcodeMachine) :=
  match fetchOperand p mode m with
  | none => none
  | some (a, mo₁, m₁) =>
    match fetchOperand q mo₁ m₁ with
    | none => none
    | some (b, _, m₂) => some (a, b, m₂)

/-- Three sequential operand fetches, threading the remaining mode digits. -/
def fetch3 (p q r : Perm) (mode : Int) (m : IntcodeMachine) :
    Option (Int × Int × Int × IntcodeMachine) :=
  match fetchOperand p mode m with
  | none => none
  | some (a, mo₁, m₁) =>
    match fetch2 q r mo₁ m₁ with
    | none => none
    | some (b, c, m₂) => some (a, b, c, m₂)

/-- The instruction decoder `From<&mut IntcodeMachine> for Instruction`:
read the word at `pc`, split it into opcode (low two decimal digits, Rust's
truncated `%`/`/`) and mode digits, and fetch the operands of the selected
opcode left to right.  `_ => unreachable!()` (unknown opcode) is a fatal
decode fault, modelled as `none`. -/
def decode (m : IntcodeMachine) : Option (Instruction × IntcodeMachine) :=
  match m.next with
  | none => none
  | some (w, m₀) =>
    let opcode := w.tmod 100
    let mode := w.tdiv 100
    if opcode = 1 then
      (fetch3 .Read .Read .Write mode m₀).map
        (fun x => (.Add x.1 x.2.1 x.2.2.1, x.2.2.2))
    else if opcode = 2 then
      (fetch3 .Read .Read .Write mode m₀).map
        (fun x => (.Multiply x.1 x.2.1 x.2.2.1, x.2.2.2))
    else if opcode = 3 then
      (fetch1 .Write mode m₀).map (fun x => (.Input x.1, x.2))
    else if opcode = 4 then
      (fetch1 .Read mode m₀).map (fun x => (.Output x.1, x.2))
    else if opcode = 5 then
      (fetch2 .Read .Read mode m₀).map (fun x => (.JumpIfTrue x.1 x.2.1, x.2.2))
    else if opcode = 6 then
      (fetch2 .Read .Read mode m₀).map (fun x => (.JumpIfFalse x.1 x.2.1, x.2.2))
    else if opcode = 7 then
      (fetch3 .Read .Read .Write mode m₀).map
        (fun x => (.LessThan x.1 x.2.1 x.2.2.1, x.2.2.2))
    else if opcode = 8 then
      (fetch3 .Read .Read .Write mode m₀).map
        (fun x => (.Equals x.1 x.2.1 x.2.2.1, x.2.2.2))
    else if opcode = 9 then
      (fetch1 .Read mode m₀).map (fun x => (.RelativeBase x.1, x.2))
    else if opcode = 99 then some (.Exit, m₀)
    else none

/-- The execution half of `IntcodeMachine::tick`: apply one decoded
instruction to the machine state.  `recv` on an exhausted input is an error
(`none`); `send` appends to the FIFO output buffer. -/
def execInstr (i : Instruction) (m : IntcodeMachine) : Option IntcodeMachine :=
  match i with
  | .Add a b dst =>
    match checked64 (a + b) with
    | none => none
    | some s => m.store (toUsize dst) s
  | .Multiply a b dst =>
    match checked64 (a * b) with
    | none => none
    | some s => m.store (toUsize dst) s
  | .Input dst =>
    match m.input with
    | [] => none
    | v :: rest => ({ m with input := rest }).store (toUsize dst) v
  | .Output a => some { m with output := m.output ++ [a] }
  | .JumpIfTrue a b => some (if a ≠ 0 then { m with pc := toUsize b } else m)
  | .JumpIfFalse a b => some (if a = 0 then { m with pc := toUsize b } else m)
  | .LessThan a b dst => m.store (toUsize dst) (if a < b then 1 else 0)
  | .Equals a b dst => m.store (toUsize dst) (if a = b then 1 else 0)
  | .RelativeBase a =>
    match checked64 (m.relative_base + a) with
    | none => none
    | some rb => some { m with relative_base := rb }
  | .Exit => some { m with halted := true }

/-- `IntcodeMachine::tick`: decode one instruction at `pc` and apply it. -/
def tick (m : IntcodeMachine) : Option IntcodeMachine :=
  match decode m with
  | none => none
  | some (i, m₁) => execInstr i m₁

/-- `IntcodeMachine::run`: tick until `halted` (or until a tick error breaks
the loop, in which case the machine is returned as-is).  The extra `Nat` is
execution fuel; `none` means the Rust loop has not finished within the given
number of iterations. -/
def run : Nat → IntcodeMachine → Option IntcodeMachine
  | 0, m => if m.halted then some m else none
  | n + 1, m =>
    if m.halted then some m
    else
      match tick m with
      | none => some m
      | some m' => run n m'

/-- `run` terminates: the Rust `while` loop in `IntcodeMachine::run` exits
after finitely many iterations. -/
def runTerminates (m : IntcodeMachine) : Prop :=
  ∃ n, (run n m).isSome = true

/-- Operand count of each opcode in the table of `src/intcode.rs`
(`none` for an unrecognised opcode). -/
def opcodeArity (op : Int) : Option Nat :=
  if op = 1 then some 3
  else if op = 2 then some 3
  else if op = 3 then some 1
  else if op = 4 then some 1
  else if op = 5 then some 2
  else if op = 6 then some 2
  else if op = 7 then some 3
  else if op = 8 then some 3
  else if op = 9 then some 1
  else if op = 99 then some 0
  else none

/-- The lowest `k` decimal mode digits (least significant first, Rust
truncated division) are all 0, 1 or 2. -/
def modeDigitsValid : Int → Nat → Bool
  | _, 0 => true
  | mo, k + 1 =>
    (decide (mo.tmod 10 = 0 ∨ mo.tmod 10 = 1 ∨ mo.tmod 10 = 2)) &&
      modeDigitsValid (mo.tdiv 10) k


/-- Whether the decoded instruction is the opcode-3 Input instruction. -/
def Instruction.consumesIn : Instruction → Bool
  | .Input _ => true
  | _ => false

/-- No Input instruction is decoded during the first `n` loop iterations of
`run` (mirrors `run`'s recursion: stop at halt, fault, or fuel). -/
def noInputDuring : Nat → IntcodeMachine → Bool
  | 0, _ => true
  | n + 1, m =>
    if m.halted then true
    else
      match decode m with
      | none => true
      | some (i, m₁) =>
        !i.consumesIn &&
          (match execInstr i m₁ with
           | none => true
           | some m₂ => noInputDuring n m₂)


/-- Rust `str::split(c)` on a character list (keeps empty pieces, never
returns an empty piece list). -/
def splitOnChar (c : Char) : List Char → List (List Char)
  | [] => [[]]
  | x :: xs =>
    let r := splitOnChar c xs
    if x = c then [] :: r
    else
      match r with
      | [] => [[x]]
      | t :: ts => (x :: t) :: ts

/-- Strip one trailing carriage return (the `\r` of a `\r\n` line ending). -/
def stripCR (l : List Char) : List Char :=
  if l.getLast? = some '\x0d' then l.dropLast else l

/-- Rust `str::lines`: split at `\n`, drop the final empty piece produced by
a trailing newline, and strip one `\r` from every `\n`-terminated piece. -/
def rustLines (s : List Char) : List (List Char) :=
  let parts := splitOnChar '\n' s
  parts.dropLast.map stripCR ++
    (match parts.getLast? with
     | some [] => []
     | some t => [t]
     | none => [])

/-- ASCII decimal digit test. -/
def isAsciiDigit (ch : Char) : Bool := '0' ≤ ch && ch ≤ '9'

/-- The number denoted by a list of ASCII digits. -/
def digitsToNat (ds : List Char) : Nat :=
  ds.foldl (fun acc d => acc * 10 + (d.toNat - 48)) 0

/-- Rust `i64::from_str` (`s.parse::<i64>()`): an optional `+`/`-` sign
followed by one or more ASCII digits and nothing else — any whitespace or
other character fails — with the value required to fit in an `i64`. -/
def parseI64 (s : List Char) : Option Int :=
  match s with
  | [] => none
  | ch :: rest =>
    let (neg, ds) :=
      if ch = '-' then (true, rest)
      else if ch = '+' then (false, rest)
      else (false, s)
    if ds.isEmpty then none
    else if ds.all isAsciiDigit then
      let v : Int := if neg then -(digitsToNat ds : Int) else (digitsToNat ds : Int)
      if -(2 ^ 63) ≤ v ∧ v < 2 ^ 63 then some v else none
    else none

/-- `parse_program` of `src/intcode.rs`. -/
def parse_program (s : List Char) : Option (List Int) :=
  ((rustLines s).map
    (fun l => (splitOnChar ',' l).filterMap parseI64)).head?


/-!
## The day-7 machine (`src/day7.rs`)

An earlier `i32` machine: memory is the program vector itself (`Vec<i32>`,
no scratch padding, no relative base), input and output are in-process
`LinkedList` buffers (`push_front` enqueues at the head, `pop_back` dequeues
the oldest value from the tail).
-/

namespace Day7

/-- `enum Instruction` of `src/day7.rs` (no relative-base opcode). -/
inductive Instruction where
  | Add (a b dst : Int)
  | Multiply (a b dst : Int)
  | Input (dst : Int)
  | Output (a : Int)
  | JumpIfTrue (a b : Int)
  | JumpIfFalse (a b : Int)
  | LessThan (a b dst : Int)
  | Equals (a b dst : Int)
  | Exit
deriving DecidableEq, Repr

/-- `struct IntcodeMachine` of `src/day7.rs`.  `input` and `output` model the
`LinkedList`s with their head first, so `push_front` is cons and `pop_back`
takes the last element. -/
structure Machine where
  pc : Nat
  mem : List Int
  input : List Int
  output : List Int
  halted : Bool
deriving DecidableEq, Repr

/-- `IntcodeMachine::new` of `src/day7.rs`. -/
def Machine.new (mem : List Int) : Machine :=
  { pc := 0, mem := mem, input := [], output := [], halted := false }

/-- `IntcodeMachine::load` of `src/day7.rs` (panic out of bounds). -/
def Machine.load (m : Machine) (address : Nat) : Option Int :=
  m.mem.get? address

/-- `IntcodeMachine::store` of `src/day7.rs` (panic out of bounds). -/
def Machine.store (m : Machine) (address : Nat) (v : Int) : Option Machine :=
  if address < m.mem.length then some { m with mem := m.mem.set address v }
  else none

/-- `IntcodeMachine::next` of `src/day7.rs`. -/
def Machine.next (m : Machine) : Option (Int × Machine) :=
  (m.load m.pc).map (fun v => (v, { m with pc := m.pc + 1 }))

/-- `IntcodeMachine::push_input`: `self.input.push_front(v)`. -/
def Machine.push_input (m : Machine) (v : Int) : Machine :=
  { m with input := v :: m.input }

/-- The `mode_next` closure of `From<&mut IntcodeMachine> for Instruction` in
`src/day7.rs`: consume one cell and resolve it as a read operand; mode digits
other than 0/1 are `unreachable!`. -/
def modeNext (mode : Int) (m : Machine) : Option (Int × Int × Machine) :=
  match m.next with
  | none => none
  | some (v, m₁) =>
    let md := mode.tmod 10
    let rest := mode.tdiv 10
    if md = 0 then (m₁.load (toUsize v)).map (fun x => (x, rest, m₁))
    else if md = 1 then some (v, rest, m₁)
    else none

/-- Two sequential `mode_next` read fetches. -/
def modeNext2 (mode : Int) (m : Machine) : Option (Int × Int × Int × Machine) :=
  match modeNext mode m with
  | none => none
  | some (a, mo₁, m₁) =>
    match modeNext mo₁ m₁ with
    | none => none
    | some (b, mo₂, m₂) => some (a, b, mo₂, m₂)

/-- The day-7 decoder: write operands are taken raw with `machine.next()`
(their mode digits are never examined); unknown opcodes are `unreachable!`. -/
def decode (m : Machine) : Option (Instruction × Machine) :=
  match m.next with
  | none => none
  | some (w, m₀) =>
    let opcode := w.tmod 100
    let mode := w.tdiv 100
    if opcode = 1 then
      match modeNext2 mode m₀ with
      | none => none
      | some (a, b, _, m₂) =>
        (m₂.next).map (fun x => (.Add a b x.1, x.2))
    else if opcode = 2 then
      match modeNext2 mode m₀ with
      | none => none
      | some (a, b, _, m₂) =>
        (m₂.next).map (fun x => (.Multiply a b x.1, x.2))
    else if opcode = 3 then
      (m₀.next).map (fun x => (.Input x.1, x.2))
    else if opcode = 4 then
      (modeNext mode m₀).map (fun x => (.Output x.1, x.2.2))
    else if opcode = 5 then
      (modeNext2 mode m₀).map (fun x => (.JumpIfTrue x.1 x.2.1, x.2.2.2))
    else if opcode = 6 then
      (modeNext2 mode m₀).map (fun x => (.JumpIfFalse x.1 x.2.1, x.2.2.2))
    else if opcode = 7 then
      match modeNext2 mode m₀ with
      | none => none
      | some (a, b, _, m₂) =>
        (m₂.next).map (fun x => (.LessThan a b x.1, x.2))
    else if opcode = 8 then
      match modeNext2 mode m₀ with
      | none => none
      | some (a, b, _, m₂) =>
        (m₂.next).map (fun x => (.Equals a b x.1, x.2))
    else if opcode = 99 then some (.Exit, m₀)
    else none

/-- The execution half of `IntcodeMachine::tick` in `src/day7.rs`:
`self.input.pop_back().expect(..)` panics on an empty input. -/
def execInstr (i : Instruction) (m : Machine) : Option Machine :=
  match i with
  | .Add a b dst =>
    match checked32 (a + b) with
    | none => none
    | some s => m.store (toUsize dst) s
  | .Multiply a b dst =>
    match checked32 (a * b) with
    | none => none
    | some s => m.store (toUsize dst) s
  | .Input dst =>
    match m.input.getLast? with
    | none => none
    | some v => ({ m with input := m.input.dropLast }).store (toUsize dst) v
  | .Output a => some { m with output := a :: m.output }
  | .JumpIfTrue a b => some (if a ≠ 0 then { m with pc := toUsize b } else m)
  | .JumpIfFalse a b => some (if a = 0 then { m with pc := toUsize b } else m)
  | .LessThan a b dst => m.store (toUsize dst) (if a < b then 1 else 0)
  | .Equals a b dst => m.store (toUsize dst) (if a = b then 1 else 0)
  | .Exit => some { m with halted := true }

/-- `IntcodeMachine::tick` of `src/day7.rs`. -/
def tick (m : Machine) : Option Machine :=
  match decode m with
  | none => none
  | some (i, m₁) => execInstr i m₁

/-- `tick` iterated a fixed number of times (`none` if any tick panics). -/
def tickN : Nat → Machine → Option Machine
  | 0, m => some m
  | n + 1, m =>
    match tick m with
    | none => none
    | some m' => tickN n m'

/-- `IntcodeMachine::run_output` of `src/day7.rs`: tick while the machine is
not halted and its output buffer is empty, then `self.output.pop_back()`.
The `Nat` is loop fuel; `none` means a panic or fuel exhaustion. -/
def run_output : Nat → Machine → Option (Machine × Option Int)
  | 0, _ => none
  | n + 1, m =>
    if m.halted = false ∧ m.output = [] then
      match tick m with
      | none => none
      | some m₂ => run_output n m₂
    else some ({ m with output := m.output.dropLast }, m.output.getLast?)

/-- One pass of the `for amplifier in &mut amplifiers` body inside
`feedback_loop` in `src/day7.rs`: push the previous output into the
amplifier, run it to its next output, and continue down the list; the `Bool`
records whether `break 'feedback` fired. -/
def feedbackRound (fuel : Nat) : List Machine → Int → Option (List Machine × Int × Bool)
  | [], last => some ([], last, false)
  | a :: rest, last =>
    match run_output fuel (a.push_input last) with
    | none => none
    | some (a', none) => some (a' :: rest, last, true)
    | some (a', some out) =>
      (feedbackRound fuel rest out).map (fun x => (a' :: x.1, x.2.1, x.2.2))

/-- The `'feedback: loop` of `feedback_loop` in `src/day7.rs`, with round
fuel. -/
def feedbackIter (fuel : Nat) : Nat → List Machine → Int → Option Int
  | 0, _, _ => none
  | n + 1, amps, last =>
    match feedbackRound fuel amps last with
    | none => none
    | some (_, l, true) => some l
    | some (amps', l, false) => feedbackIter fuel n amps' l

/-- `feedback_loop` of `src/day7.rs` specialised to one phase permutation:
build one amplifier per phase (phase pre-seeded on its input queue), inject
the initial value 0 into the ring, and loop until an amplifier halts without
producing output; the result is the last output observed. -/
def feedback_loop (fuel rounds : Nat) (program : List Int) (phases : List Int) :
    Option Int :=
  feedbackIter fuel rounds
    (phases.map (fun phase => (Machine.new program).push_input phase)) 0

end Day7

/-!
## Claims about memory initialisation and bounds (C5, C10, C8)
-/

/-- C5: for every program that fits in memory, creating a machine with
`new(program)` and then reading `load(a)` for any address `a` in
`[0, program.len())`, before any store or execution step, yields exactly
`program[a]`. -/
theorem load_after_new (program input : List Int) (a : Nat)
    (h1 : program.length ≤ MEMORY) (h2 : a < program.length) :
    ∃ m, IntcodeMachine.new program input = some m ∧
      m.load a = some (program.get ⟨a, h2⟩) := by
  refine ⟨newMachine program input, by simp [IntcodeMachine.new, h1], ?_⟩
  simp [IntcodeMachine.load, newMachine, List.get?_eq_getElem?,
    List.getElem?_append, h2, List.getElem?_eq_getElem h2, List.get_eq_getElem]

theorem load_after_new_witness :
    ∃ m, IntcodeMachine.new [5, 6, 7] [] = some m ∧ m.load 1 = some 6 :=
  load_after_new [5, 6, 7] [] 1 (by decide) (by decide)

/-- C10: for every program that fits in memory, a freshly created machine
reads 0 at every address in `[program.len(), 4096)`: scratch memory beyond
the loaded program is zero until first stored to. -/
theorem load_scratch_zero (program input : List Int) (a : Nat)
    (h1 : program.length ≤ MEMORY) (h2 : program.length ≤ a) (h3 : a < MEMORY) :
    ∃ m, IntcodeMachine.new program input = some m ∧ m.load a = some 0 := by
  refine ⟨newMachine program input, by simp [IntcodeMachine.new, h1], ?_⟩
  simp only [IntcodeMachine.load, newMachine, List.get?_eq_getElem?]
  rw [List.getElem?_append_right h2, List.getElem?_replicate,
    if_pos (by omega)]

theorem load_scratch_zero_witness :
    ∃ m, IntcodeMachine.new [5, 6, 7] [] = some m ∧ m.load 100 = some 0 :=
  load_scratch_zero [5, 6, 7] [] 100 (by decide) (by decide) (by decide)

/-- C8: for a machine whose memory has the fixed capacity `MEMORY = 4096`,
every load or store succeeds exactly on addresses inside `[0, 4096)`; a store
never changes the memory size (memory is never silently extended); and any
address computed from a negative `i64` value (via the `as usize` cast) is out
of bounds, so loading or storing through it is a fatal fault. -/
theorem memory_access_bounds (m : IntcodeMachine) (a : Nat) (v : Int)
    (hm : m.mem.length = MEMORY) :
    ((m.load a).isSome = true ↔ a < MEMORY)
  ∧ ((m.store a v).isSome = true ↔ a < MEMORY)
  ∧ (∀ m', m.store a v = some m' → m'.mem.length = MEMORY)
  ∧ (∀ w : Int, w < 0 → -(2 ^ 63) ≤ w →
      m.load (toUsize w) = none ∧ m.store (toUsize w) v = none) := by
  have hbig : ∀ w : Int, w < 0 → -(2 ^ 63) ≤ w → ¬ toUsize w < MEMORY := by
    intro w hw1 hw2
    simp only [toUsize, MEMORY]
    omega
  refine ⟨?_, ?_, ?_, ?_⟩
  · simp only [IntcodeMachine.load, List.get?_eq_getElem?]
    constructor
    · intro h
      by_contra hc
      rw [List.getElem?_eq_none (by omega)] at h
      simp at h
    · intro h
      rw [List.getElem?_eq_getElem (by omega)]
      rfl
  · simp only [IntcodeMachine.store, hm]
    constructor
    · intro h
      by_contra hc
      simp [hc] at h
    · intro h
      simp [h]
  · intro m' h
    simp only [IntcodeMachine.store, hm] at h
    split at h
    · cases h
      simp [List.length_set, hm]
    · cases h
  · intro w hw1 hw2
    have hge : MEMORY ≤ toUsize w := by
      have := hbig w hw1 hw2
      omega
    constructor
    · simp only [IntcodeMachine.load, List.get?_eq_getElem?]
      exact List.getElem?_eq_none (by omega)
    · simp only [IntcodeMachine.store, hm]
      rw [if_neg (by omega)]

theorem memory_access_bounds_witness :
    (((newMachine [] []).load 4095).isSome = true ↔ 4095 < MEMORY)
  ∧ (((newMachine [] []).store 4095 1).isSome = true ↔ 4095 < MEMORY)
  ∧ (∀ m', (newMachine [] []).store 4095 1 = some m' → m'.mem.length = MEMORY)
  ∧ (∀ w : Int, w < 0 → -(2 ^ 63) ≤ w →
      (newMachine [] []).load (toUsize w) = none
      ∧ (newMachine [] []).store (toUsize w) 1 = none) :=
  memory_access_bounds (newMachine [] []) 4095 1 (by simp [newMachine])

/-!
## Shape lemmas for the `src/intcode.rs` decoder
-/

theorem next_shape {m : IntcodeMachine} {v : Int} {m' : IntcodeMachine}
    (h : m.next = some (v, m')) :
    m' = { m with pc := m.pc + 1 } ∧ m.load m.pc = some v := by
  unfold IntcodeMachine.next at h
  cases hl : m.load m.pc with
  | none => rw [hl] at h; cases h
  | some u => rw [hl] at h; cases h; exact ⟨rfl, rfl⟩

theorem fetchOperand_shape {p : Perm} {mo : Int} {m : IntcodeMachine}
    {v r : Int} {m' : IntcodeMachine}
    (h : fetchOperand p mo m = some (v, r, m')) :
    m' = { m with pc := m.pc + 1 } ∧ r = mo.tdiv 10 ∧
    (mo.tmod 10 = 0 ∨ mo.tmod 10 = 1 ∨ mo.tmod 10 = 2) := by
  unfold fetchOperand at h
  cases hn : m.next with
  | none => rw [hn] at h; cases h
  | some x =>
    obtain ⟨v₀, m₁⟩ := x
    rw [hn] at h
    obtain ⟨hm₁, -⟩ := next_shape hn
    dsimp only at h
    split at h
    · cases p with
      | Read =>
        cases hl : m₁.load (toUsize v₀) with
        | none => rw [hl] at h; cases h
        | some u =>
          rw [hl] at h
          simp only [Option.map_some] at h  -- hmm placeholder
          cases h
          exact ⟨hm₁, rfl, by omega⟩
      | Write => cases h; exact ⟨hm₁, rfl, by omega⟩
    · split at h
      · cases h; exact ⟨hm₁, rfl, by omega⟩
      · split at h
        · cases hc : checked64 (m₁.relative_base + v₀) with
          | none => rw [hc] at h; cases h
          | some s =>
            rw [hc] at h
            dsimp only at h
            cases p with
            | Read =>
              cases hl : m₁.load (toUsize s) with
              | none => rw [hl] at h; cases h
              | some u =>
                rw [hl] at h
                simp only [Option.map_some] at h
                cases h
                exact ⟨hm₁, rfl, by omega⟩
            | Write => cases h; exact ⟨hm₁, rfl, by omega⟩
        · cases h

theorem fetch2_shape {p q : Perm} {mo : Int} {m : IntcodeMachine}
    {a b : Int} {m' : IntcodeMachine}
    (h : fetch2 p q mo m = some (a, b, m')) :
    m' = { m with pc := m.pc + 2 } ∧
    (mo.tmod 10 = 0 ∨ mo.tmod 10 = 1 ∨ mo.tmod 10 = 2) ∧
    ((mo.tdiv 10).tmod 10 = 0 ∨ (mo.tdiv 10).tmod 10 = 1 ∨
      (mo.tdiv 10).tmod 10 = 2) := by
  unfold fetch2 at h
  cases h1 : fetchOperand p mo m with
  | none => rw [h1] at h; cases h
  | some x =>
    obtain ⟨a₀, mo₁, m₁⟩ := x
    rw [h1] at h
    obtain ⟨hm₁, hr₁, hd₁⟩ := fetchOperand_shape h1
    dsimp only at h
    cases h2 : fetchOperand q mo₁ m₁ with
    | none => rw [h2] at h; cases h
    | some y =>
      obtain ⟨b₀, mo₂, m₂⟩ := y
      rw [h2] at h
      dsimp only at h
      cases h
      obtain ⟨hm₂, -, hd₂⟩ := fetchOperand_shape h2
      subst hm₁ hr₁
      subst hm₂
      exact ⟨rfl, hd₁, hd₂⟩

theorem tdiv_tdiv_ten (x : Int) : (x.tdiv 10).tdiv 10 = x.tdiv 100 := by
  cases x with
  | ofNat n =>
    show Int.ofNat (n / 10 / 10) = Int.ofNat (n / 100)
    rw [Nat.div_div_eq_div_mul]
  | negSucc n =>
    have h1 : Int.tdiv (Int.negSucc n) 10 = -(Int.ofNat ((n + 1) / 10)) := rfl
    have h2 : Int.tdiv (Int.negSucc n) 100 = -(Int.ofNat ((n + 1) / 100)) := rfl
    rw [h1, Int.neg_tdiv, h2]
    have h3 : Int.tdiv (Int.ofNat ((n + 1) / 10)) 10 =
        Int.ofNat ((n + 1) / 10 / 10) := rfl
    rw [h3, Nat.div_div_eq_div_mul]

theorem fetch3_shape {p q r : Perm} {mo : Int} {m : IntcodeMachine}
    {a b c : Int} {m' : IntcodeMachine}
    (h : fetch3 p q r mo m = some (a, b, c, m')) :
    m' = { m with pc := m.pc + 3 } ∧
    (mo.tmod 10 = 0 ∨ mo.tmod 10 = 1 ∨ mo.tmod 10 = 2) ∧
    ((mo.tdiv 10).tmod 10 = 0 ∨ (mo.tdiv 10).tmod 10 = 1 ∨
      (mo.tdiv 10).tmod 10 = 2) ∧
    ((mo.tdiv 100).tmod 10 = 0 ∨ (mo.tdiv 100).tmod 10 = 1 ∨
      (mo.tdiv 100).tmod 10 = 2) := by
  unfold fetch3 at h
  cases h1 : fetchOperand p mo m with
  | none => rw [h1] at h; cases h
  | some x =>
    obtain ⟨a₀, mo₁, m₁⟩ := x
    rw [h1] at h
    obtain ⟨hm₁, hr₁, hd₁⟩ := fetchOperand_shape h1
    dsimp only at h
    cases h2 : fetch2 q r mo₁ m₁ with
    | none => rw [h2] at h; cases h
    | some y =>
      obtain ⟨b₀, c₀, m₂⟩ := y
      rw [h2] at h
      dsimp only at h
      cases h
      obtain ⟨hm₂, hd₂, hd₃⟩ := fetch2_shape h2
      subst hm₁ hr₁
      subst hm₂
      refine ⟨rfl, hd₁, hd₂, ?_⟩
      rw [tdiv_tdiv_ten mo] at hd₃
      exact hd₃

theorem tick_eq_exec {m : IntcodeMachine} {i : Instruction}
    {m₁ : IntcodeMachine} (h : decode m = some (i, m₁)) :
    tick m = execInstr i m₁ := by
  unfold tick
  rw [h]

theorem store_effect {m : IntcodeMachine} {a : Nat} {v : Int}
    {m₂ : IntcodeMachine} (h : m.store a v = some m₂) :
    m₂.mem.get? a = some v ∧ ∀ x, x ≠ a → m₂.mem.get? x = m.mem.get? x := by
  unfold IntcodeMachine.store at h
  split at h
  · cases h
    constructor
    · simp only [List.get?_eq_getElem?]
      rw [List.getElem?_set_self (by assumption)]
    · intro x hx
      simp only [List.get?_eq_getElem?]
      rw [List.getElem?_set_ne (by omega)]
  · cases h


theorem decode_master {m : IntcodeMachine} {i : Instruction}
    {m' : IntcodeMachine} (h : decode m = some (i, m')) :
    ∃ w, m.next = some (w, { m with pc := m.pc + 1 }) ∧
      opcodeArity (w.tmod 100) = some i.nops ∧
      modeDigitsValid (w.tdiv 100) i.nops = true ∧
      m' = { m with pc := m.pc + 1 + i.nops } := by
  unfold decode at h
  cases hn : m.next with
  | none => rw [hn] at h; cases h
  | some x =>
    obtain ⟨w, m₀⟩ := x
    rw [hn] at h
    obtain ⟨hm₀, -⟩ := next_shape hn
    subst hm₀
    dsimp only at h
    refine ⟨w, rfl, ?_⟩
    by_cases h1 : w.tmod 100 = 1
    · rw [if_pos h1, Option.map_eq_some'] at h
      obtain ⟨⟨a, b, c, m₂⟩, hy, hEq⟩ := h
      dsimp only at hEq
      cases hEq
      obtain ⟨hsh, hd₁, hd₂, hd₃⟩ := fetch3_shape hy
      refine ⟨by simp [opcodeArity, h1, Instruction.nops], ?_,
        by rw [hsh]; dsimp only [Instruction.nops]⟩
      simp only [Instruction.nops, modeDigitsValid, tdiv_tdiv_ten,
        Bool.and_eq_true, decide_eq_true_eq]
      exact ⟨hd₁, hd₂, hd₃, trivial⟩
    rw [if_neg h1] at h
    by_cases h2 : w.tmod 100 = 2
    · rw [if_pos h2, Option.map_eq_some'] at h
      obtain ⟨⟨a, b, c, m₂⟩, hy, hEq⟩ := h
      dsimp only at hEq
      cases hEq
      obtain ⟨hsh, hd₁, hd₂, hd₃⟩ := fetch3_shape hy
      refine ⟨by simp [opcodeArity, h1, h2, Instruction.nops], ?_,
        by rw [hsh]; dsimp only [Instruction.nops]⟩
      simp only [Instruction.nops, modeDigitsValid, tdiv_tdiv_ten,
        Bool.and_eq_true, decide_eq_true_eq]
      exact ⟨hd₁, hd₂, hd₃, trivial⟩
    rw [if_neg h2] at h
    by_cases h3 : w.tmod 100 = 3
    · rw [if_pos h3, Option.map_eq_some'] at h
      obtain ⟨⟨c, m₂⟩, hy, hEq⟩ := h
      dsimp only at hEq
      cases hEq
      unfold fetch1 at hy
      rw [Option.map_eq_some'] at hy
      obtain ⟨⟨c₀, r₀, m₃⟩, hz, hEq₂⟩ := hy
      dsimp only at hEq₂
      cases hEq₂
      obtain ⟨hsh, -, hd₁⟩ := fetchOperand_shape hz
      refine ⟨by simp [opcodeArity, h1, h2, h3, Instruction.nops], ?_,
        by rw [hsh]; dsimp only [Instruction.nops]⟩
      simp only [Instruction.nops, modeDigitsValid, Bool.and_eq_true,
        decide_eq_true_eq]
      exact ⟨hd₁, trivial⟩
    rw [if_neg h3] at h
    by_cases h4 : w.tmod 100 = 4
    · rw [if_pos h4, Option.map_eq_some'] at h
      obtain ⟨⟨c, m₂⟩, hy, hEq⟩ := h
      dsimp only at hEq
      cases hEq
      unfold fetch1 at hy
      rw [Option.map_eq_some'] at hy
      obtain ⟨⟨c₀, r₀, m₃⟩, hz, hEq₂⟩ := hy
      dsimp only at hEq₂
      cases hEq₂
      obtain ⟨hsh, -, hd₁⟩ := fetchOperand_shape hz
      refine ⟨by simp [opcodeArity, h1, h2, h3, h4, Instruction.nops], ?_,
        by rw [hsh]; dsimp only [Instruction.nops]⟩
      simp only [Instruction.nops, modeDigitsValid, Bool.and_eq_true,
        decide_eq_true_eq]
      exact ⟨hd₁, trivial⟩
    rw [if_neg h4] at h
    by_cases h5 : w.tmod 100 = 5
    · rw [if_pos h5, Option.map_eq_some'] at h
      obtain ⟨⟨a, b, m₂⟩, hy, hEq⟩ := h
      dsimp only at hEq
      cases hEq
      obtain ⟨hsh, hd₁, hd₂⟩ := fetch2_shape hy
      refine ⟨by simp [opcodeArity, h1, h2, h3, h4, h5, Instruction.nops], ?_,
        by rw [hsh]; dsimp only [Instruction.nops]⟩
      simp only [Instruction.nops, modeDigitsValid, Bool.and_eq_true,
        decide_eq_true_eq]
      exact ⟨hd₁, hd₂, trivial⟩
    rw [if_neg h5] at h
    by_cases h6 : w.tmod 100 = 6
    · rw [if_pos h6, Option.map_eq_some'] at h
      obtain ⟨⟨a, b, m₂⟩, hy, hEq⟩ := h
      dsimp only at hEq
      cases hEq
      obtain ⟨hsh, hd₁, hd₂⟩ := fetch2_shape hy
      refine ⟨by simp [opcodeArity, h1, h2, h3, h4, h5, h6,
        Instruction.nops], ?_, by rw [hsh]; dsimp only [Instruction.nops]⟩
      simp only [Instruction.nops, modeDigitsValid, Bool.and_eq_true,
        decide_eq_true_eq]
      exact ⟨hd₁, hd₂, trivial⟩
    rw [if_neg h6] at h
    by_cases h7 : w.tmod 100 = 7
    · rw [if_pos h7, Option.map_eq_some'] at h
      obtain ⟨⟨a, b, c, m₂⟩, hy, hEq⟩ := h
      dsimp only at hEq
      cases hEq
      obtain ⟨hsh, hd₁, hd₂, hd₃⟩ := fetch3_shape hy
      refine ⟨by simp [opcodeArity, h1, h2, h3, h4, h5, h6, h7,
        Instruction.nops], ?_, by rw [hsh]; dsimp only [Instruction.nops]⟩
      simp only [Instruction.nops, modeDigitsValid, tdiv_tdiv_ten,
        Bool.and_eq_true, decide_eq_true_eq]
      exact ⟨hd₁, hd₂, hd₃, trivial⟩
    rw [if_neg h7] at h
    by_cases h8 : w.tmod 100 = 8
    · rw [if_pos h8, Option.map_eq_some'] at h
      obtain ⟨⟨a, b, c, m₂⟩, hy, hEq⟩ := h
      dsimp only at hEq
      cases hEq
      obtain ⟨hsh, hd₁, hd₂, hd₃⟩ := fetch3_shape hy
      refine ⟨by simp [opcodeArity, h1, h2, h3, h4, h5, h6, h7, h8,
        Instruction.nops], ?_, by rw [hsh]; dsimp only [Instruction.nops]⟩
      simp only [Instruction.nops, modeDigitsValid, tdiv_tdiv_ten,
        Bool.and_eq_true, decide_eq_true_eq]
      exact ⟨hd₁, hd₂, hd₃, trivial⟩
    rw [if_neg h8] at h
    by_cases h9 : w.tmod 100 = 9
    · rw [if_pos h9, Option.map_eq_some'] at h
      obtain ⟨⟨c, m₂⟩, hy, hEq⟩ := h
      dsimp only at hEq
      cases hEq
      unfold fetch1 at hy
      rw [Option.map_eq_some'] at hy
      obtain ⟨⟨c₀, r₀, m₃⟩, hz, hEq₂⟩ := hy
      dsimp only at hEq₂
      cases hEq₂
      obtain ⟨hsh, -, hd₁⟩ := fetchOperand_shape hz
      refine ⟨by simp [opcodeArity, h1, h2, h3, h4, h5, h6, h7, h8, h9,
        Instruction.nops], ?_, by rw [hsh]; dsimp only [Instruction.nops]⟩
      simp only [Instruction.nops, modeDigitsValid, Bool.and_eq_true,
        decide_eq_true_eq]
      exact ⟨hd₁, trivial⟩
    rw [if_neg h9] at h
    by_cases h99 : w.tmod 100 = 99
    · rw [if_pos h99] at h
      cases h
      refine ⟨by simp [opcodeArity, h1, h2, h3, h4, h5, h6, h7, h8, h9, h99,
        Instruction.nops], rfl, ?_⟩
      dsimp only [Instruction.nops]
    rw [if_neg h99] at h
    cases h

/-!
## Claim C1: the effect of one `tick` matches the opcode table
-/

/-- C1: for every machine state whose decoder yields an instruction, the
`tick` applying it has exactly the effect listed in the opcode table:
Add/Multiply store `a + b` / `a * b` at `dst` (whenever the value fits in an
`i64`); Input stores the next pending input value at `dst`; Output appends
`a` to the FIFO output; JumpIfTrue sets `pc` to `b` exactly when `a ≠ 0`;
JumpIfFalse sets `pc` to `b` exactly when `a = 0`; LessThan/Equals store 1
or 0 at `dst` according to the comparison; RelativeBaseAdjust adds `a` to
the relative base (when the sum fits); Exit sets the halted flag; a
successful store changes no memory cell other than `dst`; and decoding
itself leaves memory, channels, relative base and halted flag untouched. -/
theorem tick_opcode_table (m m₁ : IntcodeMachine) :
    (∀ a b dst, decode m = some (.Add a b dst, m₁) →
      -(2 ^ 63) ≤ a + b → a + b < 2 ^ 63 →
      tick m = m₁.store (toUsize dst) (a + b))
  ∧ (∀ a b dst, decode m = some (.Multiply a b dst, m₁) →
      -(2 ^ 63) ≤ a * b → a * b < 2 ^ 63 →
      tick m = m₁.store (toUsize dst) (a * b))
  ∧ (∀ dst v rest, decode m = some (.Input dst, m₁) → m₁.input = v :: rest →
      tick m = ({ m₁ with input := rest }).store (toUsize dst) v)
  ∧ (∀ a, decode m = some (.Output a, m₁) →
      tick m = some { m₁ with output := m₁.output ++ [a] })
  ∧ (∀ a b, decode m = some (.JumpIfTrue a b, m₁) →
      tick m = some (if a ≠ 0 then { m₁ with pc := toUsize b } else m₁))
  ∧ (∀ a b, decode m = some (.JumpIfFalse a b, m₁) →
      tick m = some (if a = 0 then { m₁ with pc := toUsize b } else m₁))
  ∧ (∀ a b dst, decode m = some (.LessThan a b dst, m₁) →
      tick m = m₁.store (toUsize dst) (if a < b then 1 else 0))
  ∧ (∀ a b dst, decode m = some (.Equals a b dst, m₁) →
      tick m = m₁.store (toUsize dst) (if a = b then 1 else 0))
  ∧ (∀ a, decode m = some (.RelativeBase a, m₁) →
      -(2 ^ 63) ≤ m₁.relative_base + a → m₁.relative_base + a < 2 ^ 63 →
      tick m = some { m₁ with relative_base := m₁.relative_base + a })
  ∧ (decode m = some (.Exit, m₁) → tick m = some { m₁ with halted := true })
  ∧ (∀ a v m₂, m₁.store a v = some m₂ →
      m₂.mem.get? a = some v ∧ ∀ x, x ≠ a → m₂.mem.get? x = m₁.mem.get? x)
  ∧ (∀ i m', decode m = some (i, m') →
      m'.mem = m.mem ∧ m'.relative_base = m.relative_base ∧
      m'.input = m.input ∧ m'.output = m.output ∧ m'.halted = m.halted) := by
  refine ⟨?_, ?_, ?_, ?_, ?_, ?_, ?_, ?_, ?_, ?_, ?_, ?_⟩
  · intro a b dst h h1 h2
    rw [tick_eq_exec h]
    simp only [execInstr]
    rw [show checked64 (a + b) = some (a + b) from by
      unfold checked64; rw [if_pos ⟨h1, h2⟩]]
  · intro a b dst h h1 h2
    rw [tick_eq_exec h]
    simp only [execInstr]
    rw [show checked64 (a * b) = some (a * b) from by
      unfold checked64; rw [if_pos ⟨h1, h2⟩]]
  · intro dst v rest h hin
    rw [tick_eq_exec h]
    simp only [execInstr]
    rw [hin]
  · intro a h
    rw [tick_eq_exec h]
    rfl
  · intro a b h
    rw [tick_eq_exec h]
    rfl
  · intro a b h
    rw [tick_eq_exec h]
    rfl
  · intro a b dst h
    rw [tick_eq_exec h]
    rfl
  · intro a b dst h
    rw [tick_eq_exec h]
    rfl
  · intro a h h1 h2
    rw [tick_eq_exec h]
    simp only [execInstr]
    rw [show checked64 (m₁.relative_base + a) = some (m₁.relative_base + a)
      from by unfold checked64; rw [if_pos ⟨h1, h2⟩]]
  · intro h
    rw [tick_eq_exec h]
    rfl
  · intro a v m₂ h
    exact store_effect h
  · intro i m' h
    obtain ⟨w, -, -, -, hm'⟩ := decode_master h
    rw [hm']
    exact ⟨rfl, rfl, rfl, rfl, rfl⟩

theorem tick_opcode_table_witness :
    tick ⟨0, [1101, 2, 3, 0, 99], 0, [], [], false⟩ =
      IntcodeMachine.store ⟨4, [1101, 2, 3, 0, 99], 0, [], [], false⟩
        (toUsize 0) (2 + 3)
  ∧ tick ⟨0, [3, 0, 99], 0, [7], [], false⟩ =
      IntcodeMachine.store ⟨2, [3, 0, 99], 0, [], [], false⟩ (toUsize 0) 7
  ∧ tick ⟨0, [104, 9, 99], 0, [], [], false⟩ =
      some ⟨2, [104, 9, 99], 0, [], [9], false⟩
  ∧ tick ⟨0, [1105, 1, 0], 0, [], [], false⟩ =
      some ⟨0, [1105, 1, 0], 0, [], [], false⟩
  ∧ tick ⟨0, [99], 0, [], [], false⟩ = some ⟨1, [99], 0, [], [], true⟩ :=
  ⟨(tick_opcode_table ⟨0, [1101, 2, 3, 0, 99], 0, [], [], false⟩
      ⟨4, [1101, 2, 3, 0, 99], 0, [], [], false⟩).1 2 3 0
      (by decide) (by decide) (by decide),
   (tick_opcode_table ⟨0, [3, 0, 99], 0, [7], [], false⟩
      ⟨2, [3, 0, 99], 0, [7], [], false⟩).2.2.1 0 7 []
      (by decide) (by decide),
   (tick_opcode_table ⟨0, [104, 9, 99], 0, [], [], false⟩
      ⟨2, [104, 9, 99], 0, [], [], false⟩).2.2.2.1 9 (by decide),
   (tick_opcode_table ⟨0, [1105, 1, 0], 0, [], [], false⟩
      ⟨3, [1105, 1, 0], 0, [], [], false⟩).2.2.2.2.1 1 0 (by decide),
   (tick_opcode_table ⟨0, [99], 0, [], [], false⟩
      ⟨1, [99], 0, [], [], false⟩).2.2.2.2.2.2.2.2.2.1 (by decide)⟩

/-!
## Claim C2: write-operand address resolution

The claim states that mode digit 1 (immediate) on a write operand is a
decode fault.  In `src/intcode.rs` the arm `(Immediate, _) | (Position,
Write) => v` silently resolves an immediate-mode write operand to its raw
value, exactly like a position-mode write: it is a fallback, not a fault.
-/

/-- C2 counterexample: the instruction word 11101 (opcode 1 = Add with all
three mode digits 1, so an immediate-mode *write* destination) decodes
without any fault, resolving the destination to the raw value 0. -/
theorem write_immediate_decodes_counterexample :
    decode ⟨0, [11101, 2, 3, 0, 99], 0, [], [], false⟩ =
      some (.Add 2 3 0, ⟨4, [11101, 2, 3, 0, 99], 0, [], [], false⟩)
  ∧ decode ⟨0, [11101, 2, 3, 0, 99], 0, [], [], false⟩ ≠ none
  ∧ fetchOperand .Write 1 ⟨0, [5, 0, 0], 0, [], [], false⟩ =
      some (5, 0, ⟨1, [5, 0, 0], 0, [], [], false⟩) := by
  refine ⟨by decide, by decide, by decide⟩

/-- C2 (amended): a write operand with mode digit 2 resolves to the address
`relative_base + raw` (when that sum fits in an `i64`); a write operand with
mode digit 0 resolves to the raw value as the literal address; and a write
operand with mode digit 1 (immediate — invalid per the Intcode
specification) is *not* a fault: it silently falls back to the raw value,
identical to position mode. -/
theorem write_operand_resolution (mode : Int) (m m₁ : IntcodeMachine)
    (v : Int) (hn : m.next = some (v, m₁)) :
    (mode.tmod 10 = 0 →
      fetchOperand .Write mode m = some (v, mode.tdiv 10, m₁))
  ∧ (mode.tmod 10 = 1 →
      fetchOperand .Write mode m = some (v, mode.tdiv 10, m₁))
  ∧ (mode.tmod 10 = 2 →
      -(2 ^ 63) ≤ m₁.relative_base + v → m₁.relative_base + v < 2 ^ 63 →
      fetchOperand .Write mode m =
        some (m₁.relative_base + v, mode.tdiv 10, m₁)) := by
  refine ⟨?_, ?_, ?_⟩
  · intro h0
    unfold fetchOperand
    rw [hn]
    dsimp only
    rw [if_pos h0]
  · intro h1
    unfold fetchOperand
    rw [hn]
    dsimp only
    rw [if_neg (by omega), if_pos h1]
  · intro h2 hlo hhi
    unfold fetchOperand
    rw [hn]
    dsimp only
    rw [if_neg (by omega), if_neg (by omega), if_pos h2,
      show checked64 (m₁.relative_base + v) = some (m₁.relative_base + v)
        from by unfold checked64; rw [if_pos ⟨hlo, hhi⟩]]

theorem write_operand_resolution_witness :
    fetchOperand .Write 210 ⟨0, [5, 0, 0], 0, [], [], false⟩ =
      some (5, 21, ⟨1, [5, 0, 0], 0, [], [], false⟩)
  ∧ fetchOperand .Write 2 ⟨0, [5, 0, 0], 7, [], [], false⟩ =
      some (12, 0, ⟨1, [5, 0, 0], 7, [], [], false⟩) :=
  ⟨(write_operand_resolution 210 ⟨0, [5, 0, 0], 0, [], [], false⟩
      ⟨1, [5, 0, 0], 0, [], [], false⟩ 5 (by decide)).1 (by decide),
   (write_operand_resolution 2 ⟨0, [5, 0, 0], 7, [], [], false⟩
      ⟨1, [5, 0, 0], 7, [], [], false⟩ 5 (by decide)).2.2 (by decide)
      (by decide) (by decide)⟩

/-!
## Claim C4: unknown opcodes and malformed mode digits are fatal
-/

/-- C4: decoding succeeds only when the instruction word's low two decimal
digits are an opcode of the table (1–9 or 99) and every mode digit consumed
for its operands is 0, 1, or 2.  Conversely, a word with an unrecognised
opcode, or a recognised opcode with a malformed mode digit among its
operands, makes `decode` — and hence `tick` — a fatal fault (`none`): the
engine never executes such an instruction under any guessed interpretation
and never silently skips it. -/
theorem decode_fault_fatal (m : IntcodeMachine) :
    (∀ i m', decode m = some (i, m') →
      ∃ w, m.next = some (w, { m with pc := m.pc + 1 }) ∧
        opcodeArity (w.tmod 100) = some i.nops ∧
        modeDigitsValid (w.tdiv 100) i.nops = true)
  ∧ (∀ w m₀, m.next = some (w, m₀) → opcodeArity (w.tmod 100) = none →
      decode m = none)
  ∧ (∀ w m₀ k, m.next = some (w, m₀) → opcodeArity (w.tmod 100) = some k →
      modeDigitsValid (w.tdiv 100) k = false → decode m = none)
  ∧ (decode m = none → tick m = none) := by
  refine ⟨?_, ?_, ?_, ?_⟩
  · intro i m' h
    obtain ⟨w, hn, ha, hv, -⟩ := decode_master h
    exact ⟨w, hn, ha, hv⟩
  · intro w m₀ hn hbad
    cases hd : decode m with
    | none => rfl
    | some x =>
      obtain ⟨i, m'⟩ := x
      obtain ⟨w', hn', ha, -, -⟩ := decode_master hd
      rw [hn] at hn'
      cases hn'
      rw [hbad] at ha
      cases ha
  · intro w m₀ k hn ha hbad
    cases hd : decode m with
    | none => rfl
    | some x =>
      obtain ⟨i, m'⟩ := x
      obtain ⟨w', hn', ha', hv, -⟩ := decode_master hd
      rw [hn] at hn'
      cases hn'
      rw [ha] at ha'
      cases ha'
      rw [hv] at hbad
      cases hbad
  · intro h
    unfold tick
    rw [h]

theorem decode_fault_fatal_witness :
    decode ⟨0, [55], 0, [], [], false⟩ = none
  ∧ decode ⟨0, [301, 1, 1, 1], 0, [], [], false⟩ = none
  ∧ tick ⟨0, [55], 0, [], [], false⟩ = none :=
  ⟨(decode_fault_fatal ⟨0, [55], 0, [], [], false⟩).2.1 55
      ⟨1, [55], 0, [], [], false⟩ (by decide) (by decide),
   (decode_fault_fatal ⟨0, [301, 1, 1, 1], 0, [], [], false⟩).2.2.1 301
      ⟨1, [301, 1, 1, 1], 0, [], [], false⟩ 3 (by decide) (by decide)
      (by decide),
   (decode_fault_fatal ⟨0, [55], 0, [], [], false⟩).2.2.2
      ((decode_fault_fatal ⟨0, [55], 0, [], [], false⟩).2.1 55
        ⟨1, [55], 0, [], [], false⟩ (by decide) (by decide))⟩

/-!
## Claim C3: determinism and (non-)termination of `run`

The claim asserts termination of `run()` for every well-formed program with
no opcode 3/4.  The program `[1106, 0, 0]` (JumpIfFalse, both operands
immediate 0) is a counterexample: every tick jumps back to pc 0 and the
machine never halts or faults, so the Rust `while` loop never exits.
Determinism does hold, and is formalised as input-channel independence: a
run that never decodes an Input instruction produces the same result
whatever the input channel holds.
-/

/-- C3 counterexample: `[1106, 0, 0]` is a program containing no opcode 3 or
4 cell, every tick of which is a legal non-I/O self-loop, yet `run()` never
terminates. -/
theorem run_no_termination_counterexample :
    ¬ runTerminates (newMachine [1106, 0, 0] [])
  ∧ tick (newMachine [1106, 0, 0] []) = some (newMachine [1106, 0, 0] [])
  ∧ (∀ w ∈ [(1106 : Int), 0, 0], w.tmod 100 ≠ 3 ∧ w.tmod 100 ≠ 4) := by
  have htick : tick (newMachine [1106, 0, 0] []) =
      some (newMachine [1106, 0, 0] []) := rfl
  have hhalt : (newMachine [1106, 0, 0] []).halted = false := rfl
  refine ⟨?_, htick, by decide⟩
  rintro ⟨n, hn⟩
  have hrun : ∀ k, run k (newMachine [1106, 0, 0] []) = none := by
    intro k
    induction k with
    | zero => simp [run, hhalt]
    | succ k ih => simp [run, hhalt, htick, ih]
  rw [hrun n] at hn
  cases hn

theorem load_setInput (m : IntcodeMachine) (j : List Int) (a : Nat) :
    ({ m with input := j } : IntcodeMachine).load a = m.load a := rfl

theorem next_setInput (m : IntcodeMachine) (j : List Int) :
    ({ m with input := j } : IntcodeMachine).next =
      (m.next).map (fun x => (x.1, { x.2 with input := j })) := by
  unfold IntcodeMachine.next IntcodeMachine.load
  dsimp only
  cases m.mem.get? m.pc <;> rfl

theorem store_setInput (m : IntcodeMachine) (j : List Int) (a : Nat) (v : Int) :
    ({ m with input := j } : IntcodeMachine).store a v =
      (m.store a v).map (fun m' => { m' with input := j }) := by
  unfold IntcodeMachine.store
  dsimp only
  by_cases h : a < m.mem.length
  · rw [if_pos h, if_pos h]; rfl
  · rw [if_neg h, if_neg h]; rfl

theorem fetchOperand_setInput (p : Perm) (mo : Int) (m : IntcodeMachine)
    (j : List Int) :
    fetchOperand p mo { m with input := j } =
      (fetchOperand p mo m).map
        (fun x => (x.1, x.2.1, { x.2.2 with input := j })) := by
  unfold fetchOperand
  rw [next_setInput]
  cases hn : m.next with
  | none => rfl
  | some x =>
    obtain ⟨v, m₁⟩ := x
    dsimp only [Option.map_some']
    by_cases h0 : mo.tmod 10 = 0
    · rw [if_pos h0, if_pos h0]
      cases p with
      | Read =>
        dsimp only
        rw [load_setInput]
        cases m₁.load (toUsize v) <;> rfl
      | Write => rfl
    rw [if_neg h0, if_neg h0]
    by_cases h1 : mo.tmod 10 = 1
    · rw [if_pos h1, if_pos h1]; rfl
    rw [if_neg h1, if_neg h1]
    by_cases h2 : mo.tmod 10 = 2
    · rw [if_pos h2, if_pos h2]
      cases checked64 (m₁.relative_base + v) with
      | none => rfl
      | some s =>
        cases p with
        | Read =>
          dsimp only
          rw [load_setInput]
          cases m₁.load (toUsize s) <;> rfl
        | Write => rfl
    rw [if_neg h2, if_neg h2]; rfl

theorem fetch1_setInput (p : Perm) (mo : Int) (m : IntcodeMachine)
    (j : List Int) :
    fetch1 p mo { m with input := j } =
      (fetch1 p mo m).map (fun x => (x.1, { x.2 with input := j })) := by
  unfold fetch1
  rw [fetchOperand_setInput]
  cases fetchOperand p mo m <;> rfl

theorem fetch2_setInput (p q : Perm) (mo : Int) (m : IntcodeMachine)
    (j : List Int) :
    fetch2 p q mo { m with input := j } =
      (fetch2 p q mo m).map
        (fun x => (x.1, x.2.1, { x.2.2 with input := j })) := by
  unfold fetch2
  rw [fetchOperand_setInput]
  cases h1 : fetchOperand p mo m with
  | none => rfl
  | some x =>
    obtain ⟨a, mo₁, m₁⟩ := x
    dsimp only [Option.map_some']
    rw [fetchOperand_setInput]
    cases h2 : fetchOperand q mo₁ m₁ with
    | none => rfl
    | some y =>
      obtain ⟨b, mo₂, m₂⟩ := y
      rfl

theorem fetch3_setInput (p q r : Perm) (mo : Int) (m : IntcodeMachine)
    (j : List Int) :
    fetch3 p q r mo { m with input := j } =
      (fetch3 p q r mo m).map
        (fun x => (x.1, x.2.1, x.2.2.1, { x.2.2.2 with input := j })) := by
  unfold fetch3
  rw [fetchOperand_setInput]
  cases h1 : fetchOperand p mo m with
  | none => rfl
  | some x =>
    obtain ⟨a, mo₁, m₁⟩ := x
    dsimp only [Option.map_some']
    rw [fetch2_setInput]
    cases h2 : fetch2 q r mo₁ m₁ with
    | none => rfl
    | some y =>
      obtain ⟨b, c, m₂⟩ := y
      rfl

theorem decode_setInput (m : IntcodeMachine) (j : List Int) :
    decode { m with input := j } =
      (decode m).map (fun x => (x.1, { x.2 with input := j })) := by
  unfold decode
  rw [next_setInput]
  cases hn : m.next with
  | none => rfl
  | some x =>
    obtain ⟨w, m₀⟩ := x
    dsimp only [Option.map_some']
    by_cases h1 : w.tmod 100 = 1
    · rw [if_pos h1, if_pos h1, fetch3_setInput]
      cases fetch3 .Read .Read .Write (w.tdiv 100) m₀ <;> rfl
    rw [if_neg h1, if_neg h1]
    by_cases h2 : w.tmod 100 = 2
    · rw [if_pos h2, if_pos h2, fetch3_setInput]
      cases fetch3 .Read .Read .Write (w.tdiv 100) m₀ <;> rfl
    rw [if_neg h2, if_neg h2]
    by_cases h3 : w.tmod 100 = 3
    · rw [if_pos h3, if_pos h3, fetch1_setInput]
      cases fetch1 .Write (w.tdiv 100) m₀ <;> rfl
    rw [if_neg h3, if_neg h3]
    by_cases h4 : w.tmod 100 = 4
    · rw [if_pos h4, if_pos h4, fetch1_setInput]
      cases fetch1 .Read (w.tdiv 100) m₀ <;> rfl
    rw [if_neg h4, if_neg h4]
    by_cases h5 : w.tmod 100 = 5
    · rw [if_pos h5, if_pos h5, fetch2_setInput]
      cases fetch2 .Read .Read (w.tdiv 100) m₀ <;> rfl
    rw [if_neg h5, if_neg h5]
    by_cases h6 : w.tmod 100 = 6
    · rw [if_pos h6, if_pos h6, fetch2_setInput]
      cases fetch2 .Read .Read (w.tdiv 100) m₀ <;> rfl
    rw [if_neg h6, if_neg h6]
    by_cases h7 : w.tmod 100 = 7
    · rw [if_pos h7, if_pos h7, fetch3_setInput]
      cases fetch3 .Read .Read .Write (w.tdiv 100) m₀ <;> rfl
    rw [if_neg h7, if_neg h7]
    by_cases h8 : w.tmod 100 = 8
    · rw [if_pos h8, if_pos h8, fetch3_setInput]
      cases fetch3 .Read .Read .Write (w.tdiv 100) m₀ <;> rfl
    rw [if_neg h8, if_neg h8]
    by_cases h9 : w.tmod 100 = 9
    · rw [if_pos h9, if_pos h9, fetch1_setInput]
      cases fetch1 .Read (w.tdiv 100) m₀ <;> rfl
    rw [if_neg h9, if_neg h9]
    by_cases h99 : w.tmod 100 = 99
    · rw [if_pos h99, if_pos h99]; rfl
    rw [if_neg h99, if_neg h99]; rfl

theorem execInstr_setInput (i : Instruction) (m : IntcodeMachine)
    (j : List Int) (hni : i.consumesIn = false) :
    execInstr i { m with input := j } =
      (execInstr i m).map (fun m' => { m' with input := j }) := by
  cases i with
  | Add a b dst =>
    simp only [execInstr]
    cases checked64 (a + b) with
    | none => rfl
    | some s => exact store_setInput m j (toUsize dst) s
  | Multiply a b dst =>
    simp only [execInstr]
    cases checked64 (a * b) with
    | none => rfl
    | some s => exact store_setInput m j (toUsize dst) s
  | Input dst => cases hni
  | Output a => rfl
  | JumpIfTrue a b =>
    simp only [execInstr, Option.map_some]
    split <;> rfl
  | JumpIfFalse a b =>
    simp only [execInstr, Option.map_some]
    split <;> rfl
  | LessThan a b dst => exact store_setInput m j (toUsize dst) _
  | Equals a b dst => exact store_setInput m j (toUsize dst) _
  | RelativeBase a =>
    simp only [execInstr]
    cases checked64 (m.relative_base + a) <;> rfl
  | Exit => rfl

/-- C3 (amended): `run` is deterministic — its result is a pure function of
the machine state, and for executions that never decode an Input instruction
(in particular every program free of opcodes 3 and 4) the result is
independent of the contents of the input channel; but termination is *not*
guaranteed for all such programs (see the counterexample). -/
theorem run_input_independent (n : Nat) (m : IntcodeMachine) (j : List Int)
    (h : noInputDuring n m = true) :
    run n { m with input := j } =
      (run n m).map (fun m' => { m' with input := j }) := by
  induction n generalizing m with
  | zero =>
    simp only [run]
    by_cases hh : m.halted = true
    · rw [if_pos hh, if_pos hh]; rfl
    · rw [if_neg hh, if_neg hh]; rfl
  | succ n ih =>
    simp only [run]
    by_cases hh : m.halted = true
    · rw [if_pos hh, if_pos hh]; rfl
    · rw [if_neg hh, if_neg hh]
      unfold tick
      rw [decode_setInput]
      cases hd : decode m with
      | none => rfl
      | some x =>
        obtain ⟨i, m₁⟩ := x
        dsimp only [Option.map_some']
        simp only [noInputDuring] at h
        rw [if_neg hh, hd] at h
        dsimp only at h
        rw [Bool.and_eq_true] at h
        obtain ⟨hni, hrest⟩ := h
        have hni' : i.consumesIn = false := by
          cases hb : i.consumesIn with
          | false => rfl
          | true => rw [hb] at hni; exact absurd hni (by decide)
        rw [execInstr_setInput i m₁ j hni']
        cases he : execInstr i m₁ with
        | none => rfl
        | some m₂ =>
          dsimp only [Option.map_some']
          rw [he] at hrest
          dsimp only at hrest
          exact ih m₂ hrest

theorem run_input_independent_witness :
    run 3 ⟨0, [1101, 2, 3, 0, 99], 0, [42], [], false⟩ =
      (run 3 ⟨0, [1101, 2, 3, 0, 99], 0, [], [], false⟩).map
        (fun m' => { m' with input := [42] }) :=
  run_input_independent 3 ⟨0, [1101, 2, 3, 0, 99], 0, [], [], false⟩ [42]
    (by decide)

/-!
## Claim C9: the program loader `parse_program`

`parse_program` in `src/intcode.rs` is
`s.lines().map(|s| s.split(',').filter_map(|s| s.parse().ok()).collect()).next()`.
Rust strings are modelled as `List Char`: `splitOnChar` is `str::split` on
one separator character, `rustLines` is `str::lines` (split on `\x0a`
dropping a final empty piece, each terminated piece stripped of one trailing
`\x0d`), and `parseI64` is `i64::from_str` (optional sign, one or more ASCII
digits, nothing else — no whitespace — and the value must fit in an `i64`).
-/

theorem splitOnChar_ne_nil (c : Char) (l : List Char) :
    splitOnChar c l ≠ [] := by
  cases l with
  | nil => simp [splitOnChar]
  | cons x xs =>
    simp only [splitOnChar]
    split
    · simp
    · split <;> simp

theorem splitOnChar_not_mem {c : Char} {l : List Char}
    (h : ∀ ch ∈ l, ch ≠ c) : splitOnChar c l = [l] := by
  induction l with
  | nil => rfl
  | cons x xs ih =>
    simp only [splitOnChar]
    rw [ih (fun ch hc => h ch (List.mem_cons_of_mem x hc)),
      if_neg (h x (List.mem_cons_self x xs))]

theorem splitOnChar_append {c : Char} {l : List Char} (r : List Char)
    (h : ∀ ch ∈ l, ch ≠ c) :
    splitOnChar c (l ++ c :: r) = l :: splitOnChar c r := by
  induction l with
  | nil => simp [splitOnChar]
  | cons x xs ih =>
    simp only [List.cons_append, splitOnChar, List.append_eq]
    rw [ih (fun ch hc => h ch (List.mem_cons_of_mem x hc)),
      if_neg (h x (List.mem_cons_self x xs))]

theorem stripCR_no_cr {l : List Char} (h : ∀ ch ∈ l, ch ≠ '\x0d') :
    stripCR l = l := by
  unfold stripCR
  cases hl : l.getLast? with
  | none => rfl
  | some ch =>
    rw [if_neg]
    intro hcon
    cases hcon
    exact h _ (List.mem_of_getLast?_eq_some hl) rfl

theorem rustLines_cons_line {l : List Char} (r : List Char)
    (h : ∀ ch ∈ l, ch ≠ '\n' ∧ ch ≠ '\x0d') :
    rustLines (l ++ '\n' :: r) = l :: rustLines r := by
  unfold rustLines
  rw [splitOnChar_append r (fun ch hc => (h ch hc).1)]
  obtain ⟨p, ps, hP⟩ :=
    List.exists_cons_of_ne_nil (splitOnChar_ne_nil '\n' r)
  rw [hP]
  dsimp only
  rw [List.dropLast_cons_of_ne_nil (by simp), List.getLast?_cons_cons]
  simp only [List.map_cons, List.cons_append]
  rw [stripCR_no_cr (fun ch hc => (h ch hc).2)]

/-- C9: `parse_program` reads only the first line of its input — everything
after the first newline is ignored — and returns, in textual order, exactly
the comma-separated tokens of that line that parse as `i64` values; every
malformed token (including any token containing whitespace) is dropped by
the `filter_map`, never an error. -/
theorem parse_program_first_line (l r : List Char)
    (h : ∀ ch ∈ l, ch ≠ '\n' ∧ ch ≠ '\x0d') :
    parse_program (l ++ '\n' :: r) =
      some ((splitOnChar ',' l).filterMap parseI64)
  ∧ (l ≠ [] → parse_program l =
      some ((splitOnChar ',' l).filterMap parseI64)) := by
  constructor
  · unfold parse_program
    rw [rustLines_cons_line r h]
    rfl
  · intro hne
    obtain ⟨x, xs, hxl⟩ := List.exists_cons_of_ne_nil hne
    unfold parse_program rustLines
    rw [splitOnChar_not_mem (fun ch hc => (h ch hc).1), hxl]
    rfl

theorem parse_program_first_line_witness :
    parse_program
        (('1' :: ',' :: '2' :: ' ' :: ',' :: 'x' :: ',' :: '-' :: '3' :: [])
          ++ '\n' :: '9' :: '9' :: []) = some [1, -3]
  ∧ parse_program ('7' :: ',' :: '8' :: []) = some [7, 8] := by
  have h := parse_program_first_line
    ('1' :: ',' :: '2' :: ' ' :: ',' :: 'x' :: ',' :: '-' :: '3' :: [])
    ('9' :: '9' :: []) (by decide)
  have h2 := parse_program_first_line ('7' :: ',' :: '8' :: []) []
    (by decide)
  exact ⟨by rw [h.1]; decide, by rw [h2.2 (by decide)]; decide⟩

/-!
## Claim C6: `run_output` of the day-7 machine

`run_output` ticks while the machine is not halted and its output buffer is
empty, then returns `self.output.pop_back()` — the *oldest* buffered value,
because outputs are pushed with `push_front`.  It returns "no value" exactly
when the loop stopped on the halted flag with nothing buffered.
-/

/-- C6: whenever `run_output` returns, it has ticked the machine some
number of steps — stopping at the *first* state that is halted or has a
buffered output value — and returns the oldest (FIFO) buffered output
value, or "no value" exactly when the machine halted with no output value
available. -/
theorem run_output_spec (n : Nat) (m m' : Day7.Machine) (r : Option Int)
    (h : Day7.run_output n m = some (m', r)) :
    ∃ k m₂, Day7.tickN k m = some m₂ ∧
      r = m₂.output.getLast? ∧
      m' = { m₂ with output := m₂.output.dropLast } ∧
      (r = none ↔ (m₂.halted = true ∧ m₂.output = [])) ∧
      (∀ j, j < k → ∀ mj, Day7.tickN j m = some mj →
        mj.halted = false ∧ mj.output = []) := by
  induction n generalizing m with
  | zero => cases h
  | succ n ih =>
    simp only [Day7.run_output] at h
    by_cases hc : m.halted = false ∧ m.output = []
    · rw [if_pos hc] at h
      cases ht : Day7.tick m with
      | none => rw [ht] at h; cases h
      | some m₃ =>
        rw [ht] at h
        obtain ⟨k, m₂, htk, hr, hm', hiff, hmin⟩ := ih m₃ h
        refine ⟨k + 1, m₂, ?_, hr, hm', hiff, ?_⟩
        · simp only [Day7.tickN]
          rw [ht]
          exact htk
        · intro j hj mj htj
          cases j with
          | zero =>
            simp only [Day7.tickN] at htj
            cases htj
            exact ⟨hc.1, hc.2⟩
          | succ j =>
            simp only [Day7.tickN] at htj
            rw [ht] at htj
            exact hmin j (by omega) mj htj
    · rw [if_neg hc] at h
      cases h
      refine ⟨0, m, rfl, rfl, rfl, ?_, by omega⟩
      constructor
      · intro hnone
        rw [List.getLast?_eq_none_iff] at hnone
        constructor
        · by_contra hh
          exact hc ⟨by revert hh; cases m.halted <;> simp, hnone⟩
        · exact hnone
      · rintro ⟨-, hemp⟩
        rw [hemp]
        rfl

theorem run_output_spec_witness :
    ∃ k m₂, Day7.tickN k (Day7.Machine.new [104, 7, 99]) = some m₂ ∧
      (some (7 : Int)) = m₂.output.getLast? ∧
      (⟨2, [104, 7, 99], [], [], false⟩ : Day7.Machine) =
        { m₂ with output := m₂.output.dropLast } ∧
      ((some (7 : Int)) = none ↔ (m₂.halted = true ∧ m₂.output = [])) ∧
      (∀ j, j < k → ∀ mj,
        Day7.tickN j (Day7.Machine.new [104, 7, 99]) = some mj →
        mj.halted = false ∧ mj.output = []) :=
  run_output_spec 2 (Day7.Machine.new [104, 7, 99])
    ⟨2, [104, 7, 99], [], [], false⟩ (some 7) (by decide)

/-!
## Claim C7: the feedback loop and its golden value
-/

/-- C7: the day-7 feedback loop — five machines loaded with the fixed test
program, phases 9, 8, 7, 6, 5 pre-seeded, initial value 0 injected, every
machine's outputs forwarded as the next machine's inputs around the ring
until an amplifier halts without output — reports the golden value
139629729 as the last externally observed output. -/
theorem feedback_loop_golden :
    Day7.feedback_loop 60 20
      [3, 26, 1001, 26, -4, 26, 3, 27, 1002, 27, 2, 27, 1, 27, 26, 27, 4,
        27, 1001, 28, -1, 28, 1005, 28, 6, 99, 0, 0, 5]
      [9, 8, 7, 6, 5] = some 139629729 := by
  decide
